import Mathlib

/-!
Shallow embedding of the Mistral-OCR repository (src/app.py and src/docconv.py).

Strings are modelled as `List Char`; Python `set` as `Finset ℕ`; the OCR
response as a list of pages, each carrying a 0-based `index` and a Markdown
body.  All definitions are translated from the source; `headingSpec` and
`tokenWellFormed` are the spec-side definitions, used to compare the code
against the specification's description of it.  The parser is modelled twice:
`parse_page_selection` over the ASCII fragment on which every Python
`int(...)` call succeeds, and the fallible refinement `pyParse`, which keeps
Python's distinction between `str.isdigit()` and `int()` and therefore
exhibits the `ValueError` that escapes the real parser on the input `"²"`.
-/

namespace MistralOCR

/-- Python `str.strip()` on a list of characters (both ends). -/
def stripChars (l : List Char) : List Char :=
  ((l.dropWhile Char.isWhitespace).reverse.dropWhile Char.isWhitespace).reverse

/-- Python `s.split(sep)` for a single-character separator: always returns a
non-empty list of (possibly empty) chunks. -/
def splitOnChar (sep : Char) : List Char → List (List Char)
  | [] => [[]]
  | c :: rest =>
    if c = sep then [] :: splitOnChar sep rest
    else
      match splitOnChar sep rest with
      | [] => [[c]]
      | p :: ps => (c :: p) :: ps

/-- Python `s.split(sep, 1)` for a single-character separator: the part before
the first occurrence, and `some` rest when the separator occurs. -/
def splitOnce (sep : Char) : List Char → List Char × Option (List Char)
  | [] => ([], none)
  | c :: rest =>
    if c = sep then ([], some rest)
    else
      let r := splitOnce sep rest
      (c :: r.1, r.2)

/-- Python `str.isdigit()` (ASCII digits): non-empty and all digits. -/
def isDigitStr (l : List Char) : Bool :=
  !l.isEmpty && l.all Char.isDigit

/-- Python `int(...)` applied to a digit string: decimal value. -/
def digitsToNat (l : List Char) : ℕ :=
  l.foldl (fun n c => 10 * n + (c.toNat - '0'.toNat)) 0

/-- One iteration of the `for part in s.split(",")` loop of
`parse_page_selection` (src/app.py lines 22-35): strip the token, handle a
dash range or a single number, silently skip anything else. -/
def processToken (pages : Finset ℕ) (rawPart : List Char) : Finset ℕ :=
  let part := stripChars rawPart
  if part = [] then pages
  else if part.contains '-' then
    match splitOnce '-' part with
    | (a, some b) =>
      if isDigitStr (stripChars a) && isDigitStr (stripChars b) then
        let start := digitsToNat (stripChars a)
        let stop := digitsToNat (stripChars b)
        if stop < start then pages ∪ Finset.Icc stop start
        else pages ∪ Finset.Icc start stop
      else pages
    | (_, none) => pages
  else if isDigitStr part then insert (digitsToNat part) pages
  else pages

/-- The function `parse_page_selection` (src/app.py lines 14-36): `none` for the
"all pages" signal, otherwise the set of selected 1-based page numbers.
The final `return pages or None` is a truthiness test: a Python set is truthy
exactly when it is non-empty. -/
def parse_page_selection (s : List Char) : Option (Finset ℕ) :=
  if s = [] then none
  else
    let s2 := stripChars s
    if s2 = [] then none
    else
      let pages := (splitOnChar ',' s2).foldl processToken ∅
      if pages.Nonempty then some pages else none

/-- The bounds filter of src/app.py line 101:
`{p - 1 for p in sel_1based if 1 <= p <= total_pages}`. -/
def selected_idx (sel : Finset ℕ) (total_pages : ℕ) : Finset ℕ :=
  (sel.filter (fun p => 1 ≤ p ∧ p ≤ total_pages)).image (fun p => p - 1)

/-- src/app.py lines 98-103: parse the selection string, then either the
0-based filtered index set or `none` for "all pages".  Python's
`if sel_1based:` is a truthiness test: both `None` and the empty set fall to
the `else` branch. -/
def resolveSelection (pages_input : List Char) (total_pages : ℕ) :
    Option (Finset ℕ) :=
  match parse_page_selection pages_input with
  | some sel => if sel.Nonempty then some (selected_idx sel total_pages) else none
  | none => none

/-- One page of the OCR response: a 0-based index and a Markdown body. -/
structure Page where
  index : ℕ
  markdown : List Char
deriving DecidableEq

/-- The test `selected_idx is None or page.index in selected_idx` of
src/app.py line 107. -/
def isSelected (sel : Option (Finset ℕ)) (pg : Page) : Bool :=
  match sel with
  | none => true
  | some s => pg.index ∈ s

/-- The f-string of src/app.py line 108:
`f"## Page {page.index + 1}\n\n{page.markdown}"`. -/
def renderPage (pg : Page) : List Char :=
  "## Page ".toList ++ Nat.toDigits 10 (pg.index + 1) ++ '\n' :: '\n' :: pg.markdown

/-- The `md_pages` list built by the loop of src/app.py lines 105-108. -/
def md_pages (resp : List Page) (sel : Option (Finset ℕ)) : List (List Char) :=
  (resp.filter (isSelected sel)).map renderPage

/-- Aggregation `md_text = "\n\n".join(md_pages)` (src/app.py line 109). -/
def md_text (resp : List Page) (sel : Option (Finset ℕ)) : List Char :=
  List.intercalate ['\n', '\n'] (md_pages resp sel)

/-- A block emitted into the Word document: either `doc.add_heading(text, level)`
or `doc.add_paragraph(text)`. -/
inductive DocxBlock where
  | heading (level : ℕ) (text : List Char)
  | para (text : List Char)
deriving DecidableEq

/-- The heading cascade of src/app.py lines 133-147, applied to one line of
the aggregated Markdown. -/
def mapLine (ln : List Char) : DocxBlock :=
  if "###### ".toList.isPrefixOf ln then .heading 6 (ln.drop 7)
  else if "##### ".toList.isPrefixOf ln then .heading 5 (ln.drop 6)
  else if "#### ".toList.isPrefixOf ln then .heading 4 (ln.drop 5)
  else if "### ".toList.isPrefixOf ln then .heading 3 (ln.drop 4)
  else if "## ".toList.isPrefixOf ln then .heading 2 (ln.drop 3)
  else if "# ".toList.isPrefixOf ln then .heading 1 (ln.drop 2)
  else .para ln

/-- Spec-side description of the heading mapper (from the specification's
words, NOT from the code): a line is a heading of level `k` exactly when it
starts with `k` hash characters (so the character after them is not another
hash) followed by a space, with `1 ≤ k ≤ 6`.  Returns that `k`, or `none`
for a plain paragraph line. -/
def headingSpec (ln : List Char) : Option ℕ :=
  let k := (ln.takeWhile (fun c => c = '#')).length
  if 1 ≤ k ∧ k ≤ 6 ∧ ln[k]? = some ' ' then some k else none

/-- Spec-side description (from the claim's words, NOT from the code) of a
well-formed selection token: after stripping, either a digit string, or a
dash-separated pair whose two (stripped) parts are digit strings. -/
def tokenWellFormed (t : List Char) : Bool :=
  let p := stripChars t
  isDigitStr p ||
    (match splitOnce '-' p with
     | (a, some b) => isDigitStr (stripChars a) && isDigitStr (stripChars b)
     | (_, none) => false)

/-- Effects performed by the convert-button handler of src/app.py
(lines 70-118), in program order. -/
inductive AppEvent where
  | errorNoFile
  | errorNoKey
  | readFile
  | encodeBase64
  | ocrCall
  | renderOutput
deriving DecidableEq

/-- Resolution `key = api_key or os.getenv("MISTRAL_API_KEY", "")` of
src/app.py line 74:
Python `or` takes the right operand when the left is an empty (falsy) string. -/
def resolvedKey (api_key env_key : List Char) : List Char :=
  if api_key = [] then env_key else api_key

/-- The convert-button handler of src/app.py lines 70-118 as an event trace:
missing file is reported first; the key check (lines 74-76) runs before the
file is read (line 80), encoded (line 81) or sent to the OCR endpoint
(line 87). -/
def convertFlow (hasFile : Bool) (api_key env_key : List Char) : List AppEvent :=
  if !hasFile then [.errorNoFile]
  else if resolvedKey api_key env_key = [] then [.errorNoKey]
  else [.readFile, .encodeBase64, .ocrCall, .renderOutput]

/-- The standalone script src/docconv.py as an event trace: it reads and
base64-encodes the fixed input file first (lines 6-9), then checks the
environment API key (lines 13-15) and raises its distinct missing-key error
before creating the client or calling the OCR endpoint (lines 17-26). -/
def docconvFlow (env_key : List Char) : List AppEvent :=
  if env_key = [] then [.readFile, .encodeBase64, .errorNoKey]
  else [.readFile, .encodeBase64, .ocrCall, .renderOutput]

/-- Python error kinds surfaced by the refined parser model. -/
inductive PyError where
  | valueError
deriving DecidableEq

/-- Python whitespace for `str.strip()` on the ASCII range: space, tab, LF,
CR, plus vertical tab `\x0b` and form feed `\x0c` (which `Char.isWhitespace`
lacks). -/
def pyIsWhitespace (c : Char) : Bool :=
  c.isWhitespace || c = '\x0b' || c = '\x0c'

/-- Python `str.strip()` with the ASCII whitespace set of `pyIsWhitespace`. -/
def pyStripChars (l : List Char) : List Char :=
  ((l.dropWhile pyIsWhitespace).reverse.dropWhile pyIsWhitespace).reverse

/-- Python `str.isdigit()` over the character universe of this refinement,
ASCII plus U+00B2 SUPERSCRIPT TWO: `isdigit` is true for characters of
Unicode numeric type Digit, such as the superscript `'²'`, that `int()`
nevertheless rejects.  The full Unicode table is larger; this member is the
one needed to exhibit the divergence. -/
def pyIsDigit (l : List Char) : Bool :=
  !l.isEmpty && l.all (fun c => c.isDigit || c = '²')

/-- Python `int(...)` as a fallible function: on the strings the parser feeds
it (already stripped), it succeeds exactly on decimal digit strings and
raises `ValueError` on everything else — in particular on `"²"`, although
`"²".isdigit()` is `True`. -/
def pyInt (l : List Char) : Except PyError ℕ :=
  if isDigitStr l then .ok (digitsToNat l) else .error .valueError

/-- The loop body of src/app.py lines 22-35 with Python's genuine digit
semantics: the `isdigit` guards use `pyIsDigit`, and the `int(...)` calls may
raise, in evaluation order (`int(a)` before `int(b)`). -/
def pyProcessToken (pages : Finset ℕ) (rawPart : List Char) :
    Except PyError (Finset ℕ) :=
  let part := pyStripChars rawPart
  if part = [] then .ok pages
  else if part.contains '-' then
    match splitOnce '-' part with
    | (a, some b) =>
      if pyIsDigit (pyStripChars a) && pyIsDigit (pyStripChars b) then
        match pyInt (pyStripChars a), pyInt (pyStripChars b) with
        | .ok start, .ok stop =>
          if stop < start then .ok (pages ∪ Finset.Icc stop start)
          else .ok (pages ∪ Finset.Icc start stop)
        | .error e, _ => .error e
        | _, .error e => .error e
      else .ok pages
    | (_, none) => .ok pages
  else if pyIsDigit part then
    match pyInt part with
    | .ok n => .ok (insert n pages)
    | .error e => .error e
  else .ok pages

/-- `parse_page_selection` with Python's genuine digit semantics: any
`ValueError` raised inside the loop escapes the function. -/
def pyParse (s : List Char) : Except PyError (Option (Finset ℕ)) :=
  if s = [] then .ok none
  else
    let s2 := pyStripChars s
    if s2 = [] then .ok none
    else
      match (splitOnChar ',' s2).foldlM pyProcessToken ∅ with
      | .ok pages => if pages.Nonempty then .ok (some pages) else .ok none
      | .error e => .error e

end MistralOCR

namespace MistralOCR

/-! ## Helper lemmas -/

theorem stripChars_eq_nil {s : List Char} (h : ∀ c ∈ s, c.isWhitespace = true) :
    stripChars s = [] := by
  unfold stripChars
  rw [List.dropWhile_eq_nil_iff.mpr h]
  rfl

theorem parse_some_nonempty {s : List Char} {ps : Finset ℕ}
    (h : parse_page_selection s = some ps) : ps.Nonempty := by
  unfold parse_page_selection at h
  split at h
  · exact absurd h (by simp)
  · dsimp only at h
    split at h
    · exact absurd h (by simp)
    · split at h
      · next hne => cases h; exact hne
      · exact absurd h (by simp)

end MistralOCR

namespace MistralOCR

/-! ## Claim theorems -/

/-- C1: membership in the filtered index set `selected_idx sel N` is exactly
`p - 1` for the selected pages `p` with `1 ≤ p ≤ N`; out-of-range selected
pages are silently dropped (the filter is total, so no error is possible). -/
theorem selected_idx_spec (sel : Finset ℕ) (N i : ℕ) :
    i ∈ selected_idx sel N ↔ ∃ p, p ∈ sel ∧ 1 ≤ p ∧ p ≤ N ∧ i = p - 1 := by
  unfold selected_idx
  simp only [Finset.mem_image, Finset.mem_filter]
  constructor
  · rintro ⟨p, ⟨hp, h1, h2⟩, he⟩
    exact ⟨p, hp, h1, h2, he.symm⟩
  · rintro ⟨p, hp, h1, h2, he⟩
    exact ⟨p, ⟨hp, h1, h2⟩, he.symm⟩

/-- C5: for an empty or all-whitespace input string, `parse_page_selection`
returns `none`, the "all pages" signal. -/
theorem parse_whitespace_all_pages (s : List Char)
    (h : ∀ c ∈ s, c.isWhitespace = true) : parse_page_selection s = none := by
  unfold parse_page_selection
  by_cases hs : s = []
  · simp [hs]
  · rw [if_neg hs]
    simp [stripChars_eq_nil h]

/-- Witness for C5 at the concrete all-whitespace input `" \t"`. -/
theorem parse_whitespace_all_pages_witness :
    parse_page_selection [' ', '\t'] = none :=
  parse_whitespace_all_pages [' ', '\t'] (by decide)

/-- C7: on the input `"1,3-5,8"` the parser returns exactly `{1, 3, 4, 5, 8}`. -/
theorem parse_example_eq :
    parse_page_selection "1,3-5,8".toList = some ({1, 3, 4, 5, 8} : Finset ℕ) := by
  have h : parse_page_selection "1,3-5,8".toList
      = some (insert 8 (insert 1 ∅ ∪ Finset.Icc 3 5)) := rfl
  rw [h]
  congr 1
  ext a
  simp [Finset.mem_Icc]
  omega

/-- C9: the parser never returns the empty set: every `some` result is a
non-empty set, so Python's truthiness test at the use site coincides with the
result being a set. -/
theorem parse_never_empty_set (s : List Char) (ps : Finset ℕ)
    (h : parse_page_selection s = some ps) : ps.Nonempty :=
  parse_some_nonempty h

/-- Witness for C9 at the concrete input `"1"`. -/
theorem parse_never_empty_set_witness : Finset.Nonempty ({1} : Finset ℕ) :=
  parse_never_empty_set "1".toList {1} rfl

end MistralOCR

namespace MistralOCR

/-! ## Helper lemmas about characters, stripping and splitting -/

theorem ws_cases {c : Char} (h : c.isWhitespace = true) :
    c = ' ' ∨ c = '\t' ∨ c = '\r' ∨ c = '\n' := by
  have h' : ((c = ' ' ∨ c = '\t') ∨ c = '\r') ∨ c = '\n' := by
    simpa [Char.isWhitespace] using h
  tauto

theorem digit_not_ws {c : Char} (h : c.isDigit = true) : c.isWhitespace = false := by
  by_contra hw
  rw [Bool.not_eq_false] at hw
  rcases ws_cases hw with h' | h' | h' | h' <;> subst h' <;> exact absurd h (by decide)

theorem dropWhile_of_forall_false {p : Char → Bool} {l : List Char}
    (h : ∀ c ∈ l, p c = false) : l.dropWhile p = l := by
  cases l with
  | nil => rfl
  | cons c rest => simp [List.dropWhile_cons, h c (by simp)]

theorem stripChars_eq_self {l : List Char} (h : ∀ c ∈ l, c.isWhitespace = false) :
    stripChars l = l := by
  unfold stripChars
  rw [dropWhile_of_forall_false h,
    dropWhile_of_forall_false (fun c hc => h c (List.mem_reverse.mp hc)),
    List.reverse_reverse]

theorem digitStr_no_ws {l : List Char} (h : isDigitStr l = true) :
    ∀ c ∈ l, c.isWhitespace = false := fun c hc =>
  digit_not_ws ((List.all_eq_true.mp ((Bool.and_eq_true _ _).mp h).2) c hc)

theorem digitStr_no_dash {l : List Char} (h : isDigitStr l = true) : '-' ∉ l := by
  intro hm
  have := (List.all_eq_true.mp ((Bool.and_eq_true _ _).mp h).2) '-' hm
  exact absurd this (by decide)

theorem splitOnce_append {a b : List Char} (ha : '-' ∉ a) :
    splitOnce '-' (a ++ '-' :: b) = (a, some b) := by
  induction a with
  | nil => simp [splitOnce]
  | cons c a' ih =>
    have hc : c ≠ '-' := fun h => ha (h ▸ List.mem_cons_self c a')
    have ha' : '-' ∉ a' := fun h => ha (List.mem_cons_of_mem c h)
    simp [splitOnce, hc, ih ha']

theorem contains_dash {a b : List Char} : (a ++ '-' :: b).contains '-' = true := by
  rw [show (a ++ '-' :: b).contains '-' = List.elem '-' (a ++ '-' :: b) from rfl]
  exact List.elem_iff.mpr (by simp)

end MistralOCR

namespace MistralOCR

/-- C4: a range token `a-b` whose two parts are digit strings with value of
`a` greater than value of `b` contributes exactly the order-normalized
inclusive range `min..max` to the accumulated set. -/
theorem processToken_reversed_range (pages : Finset ℕ) (a b : List Char)
    (ha : isDigitStr a = true) (hb : isDigitStr b = true)
    (hab : digitsToNat b < digitsToNat a) :
    processToken pages (a ++ '-' :: b)
      = pages ∪ Finset.Icc (min (digitsToNat a) (digitsToNat b))
          (max (digitsToNat a) (digitsToNat b)) := by
  have hnws : ∀ c ∈ a ++ '-' :: b, c.isWhitespace = false := by
    intro c hc
    rcases List.mem_append.mp hc with h | h
    · exact digitStr_no_ws ha c h
    · rcases List.mem_cons.mp h with h | h
      · subst h; decide
      · exact digitStr_no_ws hb c h
  have h1 : stripChars (a ++ '-' :: b) = a ++ '-' :: b := stripChars_eq_self hnws
  have h2 : (a ++ '-' :: b).contains '-' = true := contains_dash
  have h3 : splitOnce '-' (a ++ '-' :: b) = (a, some b) :=
    splitOnce_append (digitStr_no_dash ha)
  have h4 : stripChars a = a := stripChars_eq_self (digitStr_no_ws ha)
  have h5 : stripChars b = b := stripChars_eq_self (digitStr_no_ws hb)
  have hmin : min (digitsToNat a) (digitsToNat b) = digitsToNat b :=
    Nat.min_eq_right hab.le
  have hmax : max (digitsToNat a) (digitsToNat b) = digitsToNat a :=
    Nat.max_eq_left hab.le
  simp [processToken, h1, h2, h3, h4, h5, ha, hb, hab, hmin, hmax]

/-- Witness for C4 at the concrete reversed range token `"5-3"`. -/
theorem processToken_reversed_range_witness :
    processToken ∅ ['5', '-', '3'] = ∅ ∪ Finset.Icc 3 5 :=
  processToken_reversed_range ∅ ['5'] ['3'] (by decide) (by decide) (by decide)

end MistralOCR

namespace MistralOCR

theorem processToken_malformed {t : List Char} (pages : Finset ℕ)
    (h : tokenWellFormed t = false) : processToken pages t = pages := by
  unfold tokenWellFormed at h
  dsimp only at h
  rw [Bool.or_eq_false_iff] at h
  obtain ⟨hd, hm⟩ := h
  unfold processToken
  dsimp only
  by_cases hp : stripChars t = []
  · rw [if_pos hp]
  · rw [if_neg hp]
    cases hcb : (stripChars t).contains '-' with
    | true =>
      rw [if_pos rfl]
      rcases hsp : splitOnce '-' (stripChars t) with ⟨a, _ | b⟩
      · rfl
      · rw [hsp] at hm
        dsimp only at hm ⊢
        have hcond : ¬((isDigitStr (stripChars a) && isDigitStr (stripChars b)) = true) := by
          simp [hm]
        rw [if_neg hcond]
    | false =>
      rw [if_neg (by simp), if_neg (by simp [hd])]

theorem foldl_processToken_malformed {ts : List (List Char)} (acc : Finset ℕ)
    (h : ∀ t ∈ ts, tokenWellFormed t = false) : ts.foldl processToken acc = acc := by
  induction ts generalizing acc with
  | nil => rfl
  | cons t ts ih =>
    rw [List.foldl_cons, processToken_malformed acc (h t (by simp))]
    exact ih acc (fun u hu => h u (by simp [hu]))

end MistralOCR

namespace MistralOCR

/-- Skip behavior of the ASCII model: a comma-separated token that is
neither a digit string nor a dash-separated pair of digit strings contributes
nothing, and when every token is malformed the parser returns the
"all pages" signal `none`.  By the agreement theorem for `pyParse` below this
describes the program exactly on inputs avoiding U+00B2 and the VT/FF
whitespace; on the input `"²"` the real parser instead raises, which is the
code bug recorded for C6. -/
theorem malformed_tokens_skipped (s t : List Char) (pages : Finset ℕ) :
    (tokenWellFormed t = false → processToken pages t = pages) ∧
    ((∀ u ∈ splitOnChar ',' (stripChars s), tokenWellFormed u = false) →
      parse_page_selection s = none) := by
  refine ⟨fun h => processToken_malformed pages h, fun h => ?_⟩
  unfold parse_page_selection
  by_cases hs : s = []
  · simp [hs]
  · rw [if_neg hs]
    dsimp only
    by_cases h2 : stripChars s = []
    · simp [h2]
    · rw [if_neg h2, foldl_processToken_malformed ∅ h]
      simp

/-- Concrete instance of the skip behavior at the malformed token `"x"`. -/
theorem malformed_tokens_skipped_witness :
    processToken ∅ ['x'] = ∅ ∧ parse_page_selection ['x'] = none :=
  ⟨(malformed_tokens_skipped ['x'] ['x'] ∅).1 (by decide),
   (malformed_tokens_skipped ['x'] ['x'] ∅).2 (by decide)⟩

/-- C8: when the resolved API key (text field falling back to the
environment) is empty, the convert handler reports the distinct missing-key
error and performs no file read, no base64 encoding and no OCR call. -/
theorem missing_key_blocks_ocr (api_key env_key : List Char)
    (h : resolvedKey api_key env_key = []) :
    convertFlow true api_key env_key = [AppEvent.errorNoKey] ∧
    AppEvent.readFile ∉ convertFlow true api_key env_key ∧
    AppEvent.encodeBase64 ∉ convertFlow true api_key env_key ∧
    AppEvent.ocrCall ∉ convertFlow true api_key env_key := by
  have hcf : convertFlow true api_key env_key = [AppEvent.errorNoKey] := by
    simp [convertFlow, h]
  refine ⟨hcf, ?_, ?_, ?_⟩ <;> rw [hcf] <;> simp

/-- Witness for C8: empty text field and empty environment variable. -/
theorem missing_key_blocks_ocr_witness :
    convertFlow true [] [] = [AppEvent.errorNoKey] ∧
    AppEvent.readFile ∉ convertFlow true [] [] ∧
    AppEvent.encodeBase64 ∉ convertFlow true [] [] ∧
    AppEvent.ocrCall ∉ convertFlow true [] [] :=
  missing_key_blocks_ocr [] [] rfl

/-- C10: a successfully parsed selection whose pages are all out of range
yields the empty filtered index set (`some ∅`, not the `none` "all pages"
signal) and an output with zero pages. -/
theorem out_of_range_selection_empty (s : List Char) (sel : Finset ℕ) (N : ℕ)
    (resp : List Page)
    (h1 : parse_page_selection s = some sel)
    (h2 : ∀ p ∈ sel, ¬(1 ≤ p ∧ p ≤ N)) :
    resolveSelection s N = some ∅ ∧ md_pages resp (resolveSelection s N) = [] := by
  have hne : sel.Nonempty := parse_some_nonempty h1
  have hidx : selected_idx sel N = ∅ := by
    unfold selected_idx
    rw [Finset.filter_false_of_mem h2, Finset.image_empty]
  have hres : resolveSelection s N = some ∅ := by
    unfold resolveSelection
    rw [h1]
    simp [hne, hidx]
  refine ⟨hres, ?_⟩
  rw [hres]
  simp [md_pages, isSelected]

/-- Witness for C10: selection `"50"` on a 3-page document. -/
theorem out_of_range_selection_empty_witness :
    resolveSelection "50".toList 3 = some ∅ ∧
    md_pages [⟨0, ['a']⟩] (resolveSelection "50".toList 3) = [] :=
  out_of_range_selection_empty "50".toList {50} 3 [⟨0, ['a']⟩] rfl (by decide)

end MistralOCR

namespace MistralOCR

/-- Supporting fact for the script flow of src/docconv.py: with the
environment key missing, the script reports its distinct missing-key error
and never reaches the OCR invocation (the file read and encoding, however,
have already happened by then). -/
theorem docconv_missing_key_raises_before_ocr :
    docconvFlow [] = [AppEvent.readFile, AppEvent.encodeBase64, AppEvent.errorNoKey] ∧
    AppEvent.ocrCall ∉ docconvFlow [] := by
  refine ⟨rfl, ?_⟩
  simp [docconvFlow]

end MistralOCR

namespace MistralOCR

theorem isPrefixOf_hashes_iff (k : ℕ) (ln : List Char) :
    (List.replicate k '#' ++ [' ']).isPrefixOf ln = true ↔
      ((ln.takeWhile (fun c => c = '#')).length = k ∧ ln[k]? = some ' ') := by
  induction k generalizing ln with
  | zero =>
    cases ln with
    | nil => simp [List.isPrefixOf]
    | cons c rest =>
      by_cases hc : c = ' '
      · subst hc
        simp [List.isPrefixOf, List.takeWhile_cons]
      · simp [List.isPrefixOf, List.takeWhile_cons, hc]
        exact fun h => hc h.symm
  | succ k ih =>
    cases ln with
    | nil => simp [List.isPrefixOf]
    | cons c rest =>
      by_cases hc : c = '#'
      · subst hc
        simp [List.replicate_succ, List.isPrefixOf, List.takeWhile_cons, ih rest]
      · simp [List.replicate_succ, List.isPrefixOf, List.takeWhile_cons, hc]
        exact fun h => absurd h.symm hc

/-- C3: the Word-export heading cascade agrees line by line with the
specification's description: a heading of level `k` with the `k + 1`
prefix characters removed exactly when the line starts with `k` hashes
(`1 ≤ k ≤ 6`) followed by a space, and a plain paragraph otherwise. -/
theorem mapLine_eq_headingSpec (ln : List Char) :
    mapLine ln = (match headingSpec ln with
      | some k => DocxBlock.heading k (ln.drop (k + 1))
      | none => DocxBlock.para ln) := by
  have e6 : "###### ".toList = List.replicate 6 '#' ++ [' '] := rfl
  have e5 : "##### ".toList = List.replicate 5 '#' ++ [' '] := rfl
  have e4 : "#### ".toList = List.replicate 4 '#' ++ [' '] := rfl
  have e3 : "### ".toList = List.replicate 3 '#' ++ [' '] := rfl
  have e2 : "## ".toList = List.replicate 2 '#' ++ [' '] := rfl
  have e1 : "# ".toList = List.replicate 1 '#' ++ [' '] := rfl
  cases hs : headingSpec ln with
  | none =>
    have hnot : ∀ j, 1 ≤ j → j ≤ 6 →
        (List.replicate j '#' ++ [' ']).isPrefixOf ln = false := by
      intro j hj1 hj2
      cases hpj : (List.replicate j '#' ++ [' ']).isPrefixOf ln with
      | false => rfl
      | true =>
        obtain ⟨hk, hsp⟩ := (isPrefixOf_hashes_iff j ln).mp hpj
        unfold headingSpec at hs
        dsimp only at hs
        rw [hk, if_pos ⟨hj1, hj2, hsp⟩] at hs
        exact absurd hs (by simp)
    have hnot' : ∀ j, 1 ≤ j → j ≤ 6 →
        ¬((List.replicate j '#' ++ [' ']).isPrefixOf ln = true) := by
      intro j hj1 hj2 hcontra
      rw [hnot j hj1 hj2] at hcontra
      exact Bool.false_ne_true hcontra
    unfold mapLine
    rw [e6, e5, e4, e3, e2, e1,
      if_neg (hnot' 6 (by omega) (by omega)),
      if_neg (hnot' 5 (by omega) (by omega)),
      if_neg (hnot' 4 (by omega) (by omega)),
      if_neg (hnot' 3 (by omega) (by omega)),
      if_neg (hnot' 2 (by omega) (by omega)),
      if_neg (hnot' 1 (by omega) (by omega))]
  | some k =>
    unfold headingSpec at hs
    dsimp only at hs
    by_cases hcond : 1 ≤ (ln.takeWhile (fun c => c = '#')).length ∧
        (ln.takeWhile (fun c => c = '#')).length ≤ 6 ∧
        ln[(ln.takeWhile (fun c => c = '#')).length]? = some ' '
    case neg =>
      rw [if_neg hcond] at hs
      exact absurd hs (by simp)
    case pos =>
      rw [if_pos hcond] at hs
      obtain ⟨h1, h2, hsp⟩ := hcond
      have hK : (ln.takeWhile (fun c => c = '#')).length = k := by
        injection hs
      rw [hK] at h1 h2 hsp
      have hkpre : (List.replicate k '#' ++ [' ']).isPrefixOf ln = true :=
        (isPrefixOf_hashes_iff k ln).mpr ⟨hK, hsp⟩
      have hother : ∀ j, j ≠ k →
          (List.replicate j '#' ++ [' ']).isPrefixOf ln = false := by
        intro j hj
        cases hpj : (List.replicate j '#' ++ [' ']).isPrefixOf ln with
        | false => rfl
        | true =>
          obtain ⟨hk2, _⟩ := (isPrefixOf_hashes_iff j ln).mp hpj
          exact absurd (by omega : j = k) hj
      have hother' : ∀ j, j ≠ k →
          ¬((List.replicate j '#' ++ [' ']).isPrefixOf ln = true) := by
        intro j hj hcontra
        rw [hother j hj] at hcontra
        exact Bool.false_ne_true hcontra
      unfold mapLine
      rw [e6, e5, e4, e3, e2, e1]
      interval_cases k
      · rw [if_neg (hother' 6 (by omega)), if_neg (hother' 5 (by omega)),
          if_neg (hother' 4 (by omega)), if_neg (hother' 3 (by omega)),
          if_neg (hother' 2 (by omega)), if_pos hkpre]
      · rw [if_neg (hother' 6 (by omega)), if_neg (hother' 5 (by omega)),
          if_neg (hother' 4 (by omega)), if_neg (hother' 3 (by omega)),
          if_pos hkpre]
      · rw [if_neg (hother' 6 (by omega)), if_neg (hother' 5 (by omega)),
          if_neg (hother' 4 (by omega)), if_pos hkpre]
      · rw [if_neg (hother' 6 (by omega)), if_neg (hother' 5 (by omega)),
          if_pos hkpre]
      · rw [if_neg (hother' 6 (by omega)), if_pos hkpre]
      · rw [if_pos hkpre]

end MistralOCR

namespace MistralOCR

theorem getElem_idx_congr {α : Type} {l : List α} {i j : ℕ} (h : i = j)
    (hi : i < l.length) (hj : j < l.length) : l[i] = l[j] := by
  subst h
  rfl

/-- C2: the aggregated Markdown lists the selected pages in original order
(for selected positions `j < k` in the response, page `j`'s rendering appears
at an earlier position of `md_pages` than page `k`'s); every entry of
`md_pages` is a selected page's body prefixed by its synthesized
`"## Page "` heading with the page's 0-based index plus one; and the final
text joins the entries with blank lines. -/
theorem md_pages_order_and_headings (resp : List Page) (sel : Option (Finset ℕ))
    (j k : ℕ) (hj : j < resp.length) (hk : k < resp.length) (hjk : j < k)
    (hsj : isSelected sel resp[j] = true)
    (hsk : isSelected sel resp[k] = true) :
    (∃ j' k', j' < k' ∧
      ∃ (hj' : j' < (md_pages resp sel).length)
        (hk' : k' < (md_pages resp sel).length),
        (md_pages resp sel)[j'] = renderPage resp[j] ∧
        (md_pages resp sel)[k'] = renderPage resp[k]) ∧
    md_text resp sel = List.intercalate ['\n', '\n'] (md_pages resp sel) ∧
    (∀ x ∈ md_pages resp sel, ∃ pg, pg ∈ resp ∧ isSelected sel pg = true ∧
      x = "## Page ".toList ++ Nat.toDigits 10 (pg.index + 1)
            ++ '\n' :: '\n' :: pg.markdown) := by
  have hsplit : resp.filter (isSelected sel)
      = (resp.take k).filter (isSelected sel)
        ++ (resp.drop k).filter (isSelected sel) := by
    conv_lhs => rw [← List.take_append_drop k resp]
    rw [List.filter_append]
  have hjtk : j < (resp.take k).length := by
    rw [List.length_take]
    omega
  have e1 : (resp.take k)[j] = resp[j] := List.getElem_take resp
  have m1 : resp[j] ∈ (resp.take k).filter (isSelected sel) := by
    rw [List.mem_filter]
    exact ⟨e1 ▸ List.getElem_mem hjtk, hsj⟩
  obtain ⟨n, hn, hn2⟩ := List.getElem_of_mem m1
  have hk0 : 0 < (resp.drop k).length := by
    rw [List.length_drop]
    omega
  have e2 : (resp.drop k)[0] = resp[k] := by
    rw [List.getElem_drop]
    exact getElem_idx_congr (by omega) (by omega) hk
  have m2 : resp[k] ∈ (resp.drop k).filter (isSelected sel) := by
    rw [List.mem_filter]
    exact ⟨e2 ▸ List.getElem_mem hk0, hsk⟩
  obtain ⟨m, hm, hm2⟩ := List.getElem_of_mem m2
  have hmp : md_pages resp sel
      = ((resp.take k).filter (isSelected sel)
          ++ (resp.drop k).filter (isSelected sel)).map renderPage := by
    unfold md_pages
    rw [hsplit]
  have hlen : (md_pages resp sel).length
      = ((resp.take k).filter (isSelected sel)).length
        + ((resp.drop k).filter (isSelected sel)).length := by
    rw [hmp, List.length_map, List.length_append]
  have hbj : n < (md_pages resp sel).length := by omega
  have hbk : ((resp.take k).filter (isSelected sel)).length + m
      < (md_pages resp sel).length := by omega
  refine ⟨⟨n, ((resp.take k).filter (isSelected sel)).length + m, by omega,
    hbj, hbk, ?_, ?_⟩, rfl, ?_⟩
  · have hb : n < (((resp.take k).filter (isSelected sel)
        ++ (resp.drop k).filter (isSelected sel)).map renderPage).length := by
      rw [List.length_map, List.length_append]
      omega
    have hab : n < ((resp.take k).filter (isSelected sel)
        ++ (resp.drop k).filter (isSelected sel)).length := by
      rw [List.length_append]
      omega
    calc (md_pages resp sel)[n]
        = (((resp.take k).filter (isSelected sel)
            ++ (resp.drop k).filter (isSelected sel)).map renderPage)[n] :=
          List.getElem_of_eq hmp hbj
      _ = renderPage (((resp.take k).filter (isSelected sel)
            ++ (resp.drop k).filter (isSelected sel))[n]) :=
          List.getElem_map renderPage
      _ = renderPage (((resp.take k).filter (isSelected sel))[n]) := by
          rw [List.getElem_append_left hn]
      _ = renderPage resp[j] := by rw [hn2]
  · have hb : ((resp.take k).filter (isSelected sel)).length + m
        < (((resp.take k).filter (isSelected sel)
            ++ (resp.drop k).filter (isSelected sel)).map renderPage).length := by
      rw [List.length_map, List.length_append]
      omega
    have hab : ((resp.take k).filter (isSelected sel)).length + m
        < ((resp.take k).filter (isSelected sel)
            ++ (resp.drop k).filter (isSelected sel)).length := by
      rw [List.length_append]
      omega
    calc (md_pages resp sel)[((resp.take k).filter (isSelected sel)).length + m]
        = (((resp.take k).filter (isSelected sel)
            ++ (resp.drop k).filter (isSelected sel)).map renderPage)[
              ((resp.take k).filter (isSelected sel)).length + m] :=
          List.getElem_of_eq hmp hbk
      _ = renderPage (((resp.take k).filter (isSelected sel)
            ++ (resp.drop k).filter (isSelected sel))[
              ((resp.take k).filter (isSelected sel)).length + m]) :=
          List.getElem_map renderPage
      _ = renderPage (((resp.drop k).filter (isSelected sel))[
              ((resp.take k).filter (isSelected sel)).length + m
                - ((resp.take k).filter (isSelected sel)).length]) := by
          rw [List.getElem_append_right (Nat.le_add_right _ _)]
      _ = renderPage (((resp.drop k).filter (isSelected sel))[m]) :=
          congrArg renderPage (getElem_idx_congr (by omega) (by omega) hm)
      _ = renderPage resp[k] := by rw [hm2]
  · intro x hx
    unfold md_pages at hx
    obtain ⟨pg, hpgmem, hfx⟩ := List.mem_map.mp hx
    obtain ⟨hin, hsel⟩ := List.mem_filter.mp hpgmem
    exact ⟨pg, hin, hsel, by rw [← hfx]; rfl⟩

/-- Witness for C2: a two-page response with no selection filter. -/
theorem md_pages_order_and_headings_witness :
    (∃ j' k', j' < k' ∧
      ∃ (hj' : j' < (md_pages [⟨0, ['a']⟩, ⟨1, ['b']⟩] none).length)
        (hk' : k' < (md_pages [⟨0, ['a']⟩, ⟨1, ['b']⟩] none).length),
        (md_pages [⟨0, ['a']⟩, ⟨1, ['b']⟩] none)[j']
          = renderPage ⟨0, ['a']⟩ ∧
        (md_pages [⟨0, ['a']⟩, ⟨1, ['b']⟩] none)[k']
          = renderPage ⟨1, ['b']⟩) ∧
    md_text [⟨0, ['a']⟩, ⟨1, ['b']⟩] none
      = List.intercalate ['\n', '\n'] (md_pages [⟨0, ['a']⟩, ⟨1, ['b']⟩] none) ∧
    (∀ x ∈ md_pages [⟨0, ['a']⟩, ⟨1, ['b']⟩] none,
      ∃ pg, pg ∈ ([⟨0, ['a']⟩, ⟨1, ['b']⟩] : List Page)
        ∧ isSelected none pg = true ∧
        x = "## Page ".toList ++ Nat.toDigits 10 (pg.index + 1)
              ++ '\n' :: '\n' :: pg.markdown) :=
  md_pages_order_and_headings [⟨0, ['a']⟩, ⟨1, ['b']⟩] none 0 1
    (by decide) (by decide) (by decide) (by decide) (by decide)

end MistralOCR

namespace MistralOCR

/-! ## The refined (fallible) parser model -/

theorem pyIsWhitespace_eq {c : Char} (h1 : c ≠ '\x0b') (h2 : c ≠ '\x0c') :
    pyIsWhitespace c = c.isWhitespace := by
  simp [pyIsWhitespace, h1, h2]

theorem dropWhile_congr_mem {p q : Char → Bool} :
    ∀ {l : List Char}, (∀ c ∈ l, p c = q c) → l.dropWhile p = l.dropWhile q := by
  intro l
  induction l with
  | nil => intro _; rfl
  | cons c rest ih =>
    intro h
    rw [List.dropWhile_cons, List.dropWhile_cons, h c (by simp)]
    by_cases hq : q c = true
    · rw [if_pos hq, if_pos hq]
      exact ih (fun x hx => h x (by simp [hx]))
    · rw [if_neg hq, if_neg hq]

theorem pyStripChars_eq {l : List Char}
    (h : ∀ c ∈ l, c ≠ '\x0b' ∧ c ≠ '\x0c') : pyStripChars l = stripChars l := by
  unfold pyStripChars stripChars
  rw [dropWhile_congr_mem (fun c hc => pyIsWhitespace_eq (h c hc).1 (h c hc).2)]
  rw [dropWhile_congr_mem (fun c hc => by
    have hcl : c ∈ l :=
      List.Sublist.mem (List.mem_reverse.mp hc) (List.dropWhile_sublist _)
    exact pyIsWhitespace_eq (h c hcl).1 (h c hcl).2)]

theorem mem_of_mem_stripChars {c : Char} {l : List Char}
    (h : c ∈ stripChars l) : c ∈ l := by
  unfold stripChars at h
  have h1 := List.mem_reverse.mp h
  have h2 := List.Sublist.mem h1 (List.dropWhile_sublist _)
  have h3 := List.mem_reverse.mp h2
  exact List.Sublist.mem h3 (List.dropWhile_sublist _)

theorem splitOnce_fst_subset (sep : Char) :
    ∀ l : List Char, ∀ c ∈ (splitOnce sep l).1, c ∈ l := by
  intro l
  induction l with
  | nil => simp [splitOnce]
  | cons x rest ih =>
    intro c hc
    by_cases hx : x = sep
    · subst hx
      simp [splitOnce] at hc
    · simp only [splitOnce, if_neg hx] at hc
      rcases List.mem_cons.mp hc with h | h
      · subst h
        exact List.mem_cons_self _ _
      · exact List.mem_cons_of_mem _ (ih c h)

theorem splitOnce_snd_subset (sep : Char) :
    ∀ l b : List Char, (splitOnce sep l).2 = some b → ∀ c ∈ b, c ∈ l := by
  intro l
  induction l with
  | nil => intro b hb; simp [splitOnce] at hb
  | cons x rest ih =>
    intro b hb c hc
    by_cases hx : x = sep
    · subst hx
      simp [splitOnce] at hb
      subst hb
      exact List.mem_cons_of_mem _ hc
    · simp only [splitOnce, if_neg hx] at hb
      exact List.mem_cons_of_mem _ (ih b hb c hc)

theorem mem_of_mem_splitOnChar (sep : Char) :
    ∀ l : List Char, ∀ t ∈ splitOnChar sep l, ∀ c ∈ t, c ∈ l := by
  intro l
  induction l with
  | nil =>
    intro t ht c hc
    simp [splitOnChar] at ht
    subst ht
    simp at hc
  | cons x rest ih =>
    intro t ht c hc
    by_cases hx : x = sep
    · subst hx
      simp only [splitOnChar, if_pos rfl] at ht
      rcases List.mem_cons.mp ht with h | h
      · subst h
        simp at hc
      · exact List.mem_cons_of_mem _ (ih t h c hc)
    · unfold splitOnChar at ht
      rw [if_neg hx] at ht
      rcases hrec : splitOnChar sep rest with _ | ⟨p, ps⟩
      · rw [hrec] at ht
        simp at ht
        subst ht
        simp at hc
        subst hc
        exact List.mem_cons_self _ _
      · rw [hrec] at ht
        rcases List.mem_cons.mp ht with h | h
        · subst h
          rcases List.mem_cons.mp hc with h' | h'
          · subst h'
            exact List.mem_cons_self _ _
          · exact List.mem_cons_of_mem _
              (ih p (by rw [hrec]; exact List.mem_cons_self _ _) c h')
        · exact List.mem_cons_of_mem _
            (ih t (by rw [hrec]; exact List.mem_cons_of_mem _ h) c hc)

theorem all_digit_eq : ∀ {l : List Char}, '²' ∉ l →
    l.all (fun c => c.isDigit || c = '²') = l.all Char.isDigit := by
  intro l
  induction l with
  | nil => intro _; rfl
  | cons c rest ih =>
    intro h
    have hc : c ≠ '²' := fun he => h (by simp [he])
    have hrest : '²' ∉ rest := fun hm => h (List.mem_cons_of_mem _ hm)
    simp only [List.all_cons, ih hrest]
    congr 1
    simp [hc]

theorem pyIsDigit_eq {l : List Char} (h : '²' ∉ l) :
    pyIsDigit l = isDigitStr l := by
  unfold pyIsDigit isDigitStr
  rw [all_digit_eq h]

theorem pyInt_ok {l : List Char} (h : isDigitStr l = true) :
    pyInt l = .ok (digitsToNat l) := by
  unfold pyInt
  rw [if_pos h]

theorem except_bind_ok {α β : Type} (a : α) (f : α → Except PyError β) :
    (Except.ok a >>= f) = f a := rfl

theorem pyProcessToken_agrees (pages : Finset ℕ) {t : List Char}
    (h : ∀ c ∈ t, c ≠ '²' ∧ c ≠ '\x0b' ∧ c ≠ '\x0c') :
    pyProcessToken pages t = .ok (processToken pages t) := by
  have hstrip : pyStripChars t = stripChars t :=
    pyStripChars_eq (fun c hc => ⟨(h c hc).2.1, (h c hc).2.2⟩)
  have hmem : ∀ c ∈ stripChars t, c ≠ '²' ∧ c ≠ '\x0b' ∧ c ≠ '\x0c' :=
    fun c hc => h c (mem_of_mem_stripChars hc)
  unfold pyProcessToken processToken
  dsimp only
  rw [hstrip]
  by_cases hp : stripChars t = []
  · rw [if_pos hp, if_pos hp]
  · rw [if_neg hp, if_neg hp]
    cases hcb : (stripChars t).contains '-' with
    | true =>
      rw [if_pos rfl, if_pos rfl]
      rcases hsp : splitOnce '-' (stripChars t) with ⟨a, _ | b⟩
      · rfl
      · dsimp only
        have hamem : ∀ c ∈ a, c ∈ stripChars t := by
          intro c hc
          have hsub := splitOnce_fst_subset '-' (stripChars t) c
          rw [hsp] at hsub
          exact hsub hc
        have hbmem : ∀ c ∈ b, c ∈ stripChars t := by
          intro c hc
          exact splitOnce_snd_subset '-' (stripChars t) b (by rw [hsp]) c hc
        have hsa : pyStripChars a = stripChars a :=
          pyStripChars_eq (fun c hc =>
            ⟨(hmem c (hamem c hc)).2.1, (hmem c (hamem c hc)).2.2⟩)
        have hsb : pyStripChars b = stripChars b :=
          pyStripChars_eq (fun c hc =>
            ⟨(hmem c (hbmem c hc)).2.1, (hmem c (hbmem c hc)).2.2⟩)
        have hda : pyIsDigit (stripChars a) = isDigitStr (stripChars a) :=
          pyIsDigit_eq (fun hm =>
            (hmem '²' (hamem '²' (mem_of_mem_stripChars hm))).1 rfl)
        have hdb : pyIsDigit (stripChars b) = isDigitStr (stripChars b) :=
          pyIsDigit_eq (fun hm =>
            (hmem '²' (hbmem '²' (mem_of_mem_stripChars hm))).1 rfl)
        rw [hsa, hsb, hda, hdb]
        by_cases hg : (isDigitStr (stripChars a) && isDigitStr (stripChars b)) = true
        · rw [if_pos hg, if_pos hg]
          obtain ⟨ha, hb2⟩ := (Bool.and_eq_true _ _).mp hg
          rw [pyInt_ok ha, pyInt_ok hb2]
          dsimp only
          by_cases hlt : digitsToNat (stripChars b) < digitsToNat (stripChars a)
          · rw [if_pos hlt, if_pos hlt]
          · rw [if_neg hlt, if_neg hlt]
        · rw [if_neg hg, if_neg hg]
    | false =>
      have hff : ¬(false = true) := fun hx => Bool.false_ne_true hx
      rw [if_neg hff, if_neg hff]
      have hd : pyIsDigit (stripChars t) = isDigitStr (stripChars t) :=
        pyIsDigit_eq (fun hm => (hmem '²' hm).1 rfl)
      rw [hd]
      by_cases hdd : isDigitStr (stripChars t) = true
      · rw [if_pos hdd, if_pos hdd, pyInt_ok hdd]
      · rw [if_neg hdd, if_neg hdd]

theorem foldlM_pyProcessToken_agrees {ts : List (List Char)} (acc : Finset ℕ)
    (h : ∀ t ∈ ts, ∀ c ∈ t, c ≠ '²' ∧ c ≠ '\x0b' ∧ c ≠ '\x0c') :
    ts.foldlM pyProcessToken acc = .ok (ts.foldl processToken acc) := by
  induction ts generalizing acc with
  | nil => rfl
  | cons t ts ih =>
    rw [List.foldlM_cons, pyProcessToken_agrees acc (h t (by simp)),
      except_bind_ok, List.foldl_cons]
    exact ih (processToken acc t) (fun u hu => h u (by simp [hu]))

/-- On every input avoiding U+00B2 and the VT/FF whitespace characters, the
fallible model raises nothing and agrees with the total ASCII model: the
latter is exactly the error-free restriction of the former. -/
theorem pyParse_agrees (s : List Char)
    (h : ∀ c ∈ s, c ≠ '²' ∧ c ≠ '\x0b' ∧ c ≠ '\x0c') :
    pyParse s = .ok (parse_page_selection s) := by
  unfold pyParse parse_page_selection
  by_cases hs : s = []
  · rw [if_pos hs, if_pos hs]
  · rw [if_neg hs, if_neg hs]
    dsimp only
    have hstrip : pyStripChars s = stripChars s :=
      pyStripChars_eq (fun c hc => ⟨(h c hc).2.1, (h c hc).2.2⟩)
    rw [hstrip]
    by_cases h2 : stripChars s = []
    · rw [if_pos h2, if_pos h2]
    · rw [if_neg h2, if_neg h2]
      have htoks : ∀ t ∈ splitOnChar ',' (stripChars s),
          ∀ c ∈ t, c ≠ '²' ∧ c ≠ '\x0b' ∧ c ≠ '\x0c' :=
        fun t ht c hc =>
          h c (mem_of_mem_stripChars
            (mem_of_mem_splitOnChar ',' (stripChars s) t ht c hc))
      rw [foldlM_pyProcessToken_agrees ∅ htoks]
      dsimp only
      by_cases hne : (List.foldl processToken ∅ (splitOnChar ',' (stripChars s))).Nonempty
      · rw [if_pos hne, if_pos hne]
      · rw [if_neg hne, if_neg hne]

/-- C6: the code, not the claim, is at fault.  At the failing input `"²"` the
guard `part.isdigit()` of src/app.py line 34 passes (the superscript two has
Unicode numeric type Digit), and `int("²")` on line 35 raises `ValueError`,
so `parse_page_selection` is not total — contradicting the claim and the
function's own docstring ("Return a set of 1-based page numbers, or None if
empty/invalid").  Evaluated on the refined model `pyParse`, whose digit
semantics keep the distinction between `str.isdigit()` and `int()`. -/
theorem parse_superscript_two_raises :
    pyParse ['²'] = Except.error PyError.valueError := rfl

end MistralOCR
